import Mathlib

/-!
Verification model of the flight-data-chatbot query-repair pipeline.

The definitions below are shallow embeddings of:
* `SQLGenerationAgent._clean_sql_query` (src/agents/sql_generation/sql_generation_agent.py,
  lines 129-154) and the identical inline copies in src/flight_chat.py and
  src/tools/sql_generation_tool.py;
* `OrchestratorAgent.process` (src/agents/orchestrator/orchestrator_agent.py, lines 53-228);
* the `/chat` handler (src/agent_chat.py, lines 64-113);
* the row truncation of `SQLExecutionAgent.process`
  (src/agents/sql_execution/sql_execution_agent.py, lines 58-77);
* `MemorySessionStorage` (src/agents/session_storage.py, lines 39-79).

Strings are modelled as `List Char`; the LLM and the database are oracles
(function arguments supplying the generation / execution outcomes).
-/

namespace FlightChat

/-- Python `str.replace(pat, rep)` (all occurrences, scanning left to right and
continuing after each replacement), written with an explicit fuel so that it is
structurally recursive and computable.  Fuel `n ≥ s.length` never runs out. -/
def replaceGo (pat rep : List Char) : Nat → List Char → List Char
  | 0, s => s
  | _ + 1, [] => []
  | n + 1, c :: s =>
    if pat <+: (c :: s) then rep ++ replaceGo pat rep n (s.drop (pat.length - 1))
    else c :: replaceGo pat rep n s

/-- Python `s.replace(pat, rep)` for a non-empty `pat`. -/
def pyReplace (pat rep s : List Char) : List Char :=
  replaceGo pat rep s.length s

/-- The characters removed by Python `str.strip()`: CPython's Unicode
whitespace table (U+0009-U+000D, U+001C-U+001F, space, U+0085, U+00A0,
U+1680, U+2000-U+200A, U+2028, U+2029, U+202F, U+205F, U+3000). -/
def isPySpace (c : Char) : Bool :=
  (0x09 ≤ c.toNat && c.toNat ≤ 0x0D) || (0x1C ≤ c.toNat && c.toNat ≤ 0x1F) ||
  c.toNat == 0x20 || c.toNat == 0x85 || c.toNat == 0xA0 || c.toNat == 0x1680 ||
  (0x2000 ≤ c.toNat && c.toNat ≤ 0x200A) || c.toNat == 0x2028 ||
  c.toNat == 0x2029 || c.toNat == 0x202F || c.toNat == 0x205F || c.toNat == 0x3000

/-- Leading-whitespace removal, part of Python `str.strip()`. -/
def trimLeft (s : List Char) : List Char := s.dropWhile isPySpace

/-- Trailing-whitespace removal, part of Python `str.strip()`. -/
def trimRight (s : List Char) : List Char := (s.reverse.dropWhile isPySpace).reverse

/-- Python `str.strip()`. -/
def pyStrip (s : List Char) : List Char := trimRight (trimLeft s)

/-- The code-fence token "```" (built from a string literal). -/
def bt3 : List Char := "```".toList

/-- The token "```sql" removed by the cleanup. -/
def fenceSqlTok : List Char := "```sql".toList

/-- The banned-function token "EXTRACT(". -/
def extractPat : List Char := "EXTRACT(".toList

/-- Its replacement "date_part(". -/
def datePartRep : List Char := "date_part(".toList

/-- The banned-function token "ROUND(". -/
def roundPat : List Char := "ROUND(".toList

/-- Its replacement "CAST(". -/
def castRep : List Char := "CAST(".toList

/-- Everything after the first newline: Python `s.split("\n", 1)[1]`
(defined only when a newline exists; the caller handles the IndexError case). -/
def afterFirstNewline (s : List Char) : List Char :=
  (s.dropWhile (fun c => c != '\n')).drop 1

/-- Everything before the last newline: Python `s.rsplit("\n", 1)[0]`
when a newline exists. -/
def beforeLastNewline (s : List Char) : List Char :=
  ((s.reverse.dropWhile (fun c => c != '\n')).drop 1).reverse

/-- Lines 139-140 of sql_generation_agent.py:
`if sql_query.startswith("```"): sql_query = sql_query.split("\n", 1)[1]`.
When the text starts with "```" but holds no newline, `split("\n", 1)` has a
single element and the `[1]` access raises IndexError, which the agent's
try/except turns into an error result: modelled as `none`. -/
def stripLeadingFence (s : List Char) : Option (List Char) :=
  if bt3 <+: s then
    if '\n' ∈ s then some (afterFirstNewline s) else none
  else some s

/-- Lines 141-142:
`if sql_query.endswith("```"): sql_query = sql_query.rsplit("\n", 1)[0]`.
`rsplit` always yields at least one element, so `[0]` never raises: with no
newline the text is returned whole. -/
def stripTrailingFence (s : List Char) : List Char :=
  if bt3 <:+ s then
    if '\n' ∈ s then beforeLastNewline s else s
  else s

/-- Lines 147-148:
`if ";" in sql_query and not sql_query.endswith(";"):
   sql_query = sql_query.split(";")[0] + ";"`. -/
def truncFirstStmt (s : List Char) : List Char :=
  if ';' ∈ s ∧ s.getLast? ≠ some ';' then s.takeWhile (fun c => c != ';') ++ [';']
  else s

/-- `SQLGenerationAgent._clean_sql_query` (lines 129-154), step by step:
strip a leading fence line, strip a trailing fence line, delete the "```sql"
and "```" tokens, `strip()`, truncate to the first statement when the text has
a `;` and does not end with one, then textually replace "EXTRACT(" with
"date_part(" and "ROUND(" with "CAST(".  `none` models the IndexError path. -/
def cleanSqlQuery (s : List Char) : Option (List Char) :=
  match stripLeadingFence s with
  | none => none
  | some s1 =>
    let s2 := stripTrailingFence s1
    let s3 := pyStrip (pyReplace bt3 [] (pyReplace fenceSqlTok [] s2))
    let s4 := truncFirstStmt s3
    let s5 := pyReplace extractPat datePartRep s4
    some (pyReplace roundPat castRep s5)

/-! ## Orchestrator model -/

/-- A conversation role, as in the `{"role": ..., "content": ...}` dicts. -/
inductive Role where
  | user
  | assistant
  deriving DecidableEq, Repr

/-- One conversation-history entry. -/
abbrev Turn := Role × String

/-- One result row (a record mapping column name to a serialized value). -/
abbrev Row := List (String × String)

/-- Outcome of one `SQLGenerationAgent.process` call (an oracle for the LLM):
`{"sql_query": ..., "status": "success"}` or `{"error": ..., "status": "error"}`. -/
inductive GenRes where
  | ok (sql_query : String)
  | err (error : String)
  deriving DecidableEq, Repr

/-- Outcome of one `SQLExecutionAgent.process` call (an oracle for the database). -/
inductive ExecRes where
  | ok (results : List Row) (column_names : List String) (row_count : Nat)
  | err (error : String)
  deriving DecidableEq, Repr

/-- Outcome of `OrchestratorAgent._determine_intent` (an LLM call; on any
exception the code defaults to execution). -/
inductive Intent where
  | sqlGenerationOnly
  | sqlGenerationAndExecution
  deriving DecidableEq, Repr

/-- The five distinct dictionaries `OrchestratorAgent.process` can return, each
constructor listing exactly the keys present in that branch. -/
inductive OrchResult where
  | genFailed (error : String)
  | sqlOnly (sql_query : String) (intent : String) (session_id : String)
  | regenFailed (error : String)
  | execFailedTwice (error : String) (original_query : String) (sql_query : String)
  | done (sql_query : String) (data : List Row) (column_names : List String)
      (row_count : Nat) (session_id : String) (intent : String)
  deriving DecidableEq, Repr

/-- `{"role": "user", "content": q}`. -/
def userTurn (q : String) : Turn := (Role.user, q)

/-- `{"role": "assistant", "content": s}`. -/
def asstTurn (s : String) : Turn := (Role.assistant, s)

/-- Lines 119-121 / 198-200: `if len(h) > 10: h = h[-10:]`. -/
def truncate10 (h : List Turn) : List Turn :=
  if h.length > 10 then h.drop (h.length - 10) else h

/-- Observable outcome of one `process` call: the returned dictionary, the
conversation history afterwards, and how often the generation and execution
sub-agents were invoked. -/
structure RunOut where
  res : OrchResult
  hist : List Turn
  genCalls : Nat
  execCalls : Nat
  deriving DecidableEq, Repr

/-- `OrchestratorAgent.process` (lines 53-228).  The user turn is appended to
the history first (line 73).  The `_validate_sql` result (lines 102-109) only
feeds a log message and never changes control flow or outputs, and
`_analyze_results` (lines 183-190, 346-364) returns a constant empty summary so
the `analysis` key is never added (line 214); both are therefore omitted.
`gen1`/`gen2` and `exec1`/`exec2` are oracles for the first and second
generation / execution outcomes. -/
def processRun (query session_id : String) (intent : Intent) (gen1 gen2 : GenRes)
    (exec1 exec2 : ExecRes) (hist : List Turn) : RunOut :=
  let hist1 := hist ++ [userTurn query]
  match gen1 with
  | GenRes.err m => ⟨OrchResult.genFailed m, hist1, 1, 0⟩
  | GenRes.ok sql =>
    match intent with
    | Intent.sqlGenerationOnly =>
      ⟨OrchResult.sqlOnly sql "SQL generation only" session_id,
        truncate10 (hist1 ++ [asstTurn sql]), 1, 0⟩
    | Intent.sqlGenerationAndExecution =>
      match exec1 with
      | ExecRes.ok rows cols cnt =>
        ⟨OrchResult.done sql rows cols cnt session_id "SQL generation and execution",
          truncate10 (hist1 ++ [asstTurn sql]), 1, 1⟩
      | ExecRes.err _ =>
        match gen2 with
        | GenRes.err m2 => ⟨OrchResult.regenFailed m2, hist1, 2, 1⟩
        | GenRes.ok sql2 =>
          match exec2 with
          | ExecRes.err e2 =>
            ⟨OrchResult.execFailedTwice
                ("Failed to execute SQL after regeneration: " ++ e2) query sql2,
              hist1, 2, 2⟩
          | ExecRes.ok rows cols cnt =>
            ⟨OrchResult.done sql2 rows cols cnt session_id "SQL generation and execution",
              truncate10 (hist1 ++ [asstTurn sql2]), 2, 2⟩

/-- `"status" != "success"` for the returned dictionary. -/
def OrchResult.isError : OrchResult → Bool
  | OrchResult.genFailed _ => true
  | OrchResult.regenFailed _ => true
  | OrchResult.execFailedTwice _ _ _ => true
  | _ => false

/-- The `sql_query` key of the returned dictionary, when present. -/
def OrchResult.sqlOut : OrchResult → Option String
  | OrchResult.sqlOnly s _ _ => some s
  | OrchResult.done s _ _ _ _ _ => some s
  | OrchResult.execFailedTwice _ _ s => some s
  | _ => none

/-- The `error` key of the returned dictionary, when present. -/
def OrchResult.errOut : OrchResult → Option String
  | OrchResult.genFailed m => some m
  | OrchResult.regenFailed m => some m
  | OrchResult.execFailedTwice m _ _ => some m
  | _ => none

/-- The three HTTP responses of the `/chat` handler in src/agent_chat.py. -/
inductive ChatResp where
  | badRequest (error : String)
  | serverError (error : String) (session_id : String)
  | ok (sql_query : String) (data : List Row) (session_id : String)
      (column_names : List String) (row_count : Nat)
  deriving DecidableEq, Repr

/-- Observable outcome of one `/chat` request. -/
structure ChatOut where
  resp : ChatResp
  hist : List Turn
  genCalls : Nat
  execCalls : Nat
  deriving DecidableEq, Repr

/-- The `/chat` handler (src/agent_chat.py, lines 64-113): reject an empty
query with `'No query provided'` before any orchestrator (hence any LLM or
database) call; otherwise pick a session id (`fresh_id` stands for the fresh
uuid), run the orchestrator, and serialize its result. -/
def chatRun (query session_id fresh_id : String) (intent : Intent) (gen1 gen2 : GenRes)
    (exec1 exec2 : ExecRes) (hist : List Turn) : ChatOut :=
  if query = "" then ⟨ChatResp.badRequest "No query provided", hist, 0, 0⟩
  else
    let sid := if session_id = "" then fresh_id else session_id
    let r := processRun query sid intent gen1 gen2 exec1 exec2 hist
    match r.res with
    | OrchResult.done sql rows cols cnt rsid _ =>
      ⟨ChatResp.ok sql rows rsid cols cnt, r.hist, r.genCalls, r.execCalls⟩
    | OrchResult.sqlOnly sql _ rsid =>
      ⟨ChatResp.ok sql [] rsid [] 0, r.hist, r.genCalls, r.execCalls⟩
    | other =>
      ⟨ChatResp.serverError ((OrchResult.errOut other).getD "Unknown error") sid,
        r.hist, r.genCalls, r.execCalls⟩

/-! ## Executor row truncation -/

/-- The success dictionary of `SQLExecutionAgent.process`. -/
structure ExecSuccess where
  results : List Row
  column_names : List String
  row_count : Nat
  deriving DecidableEq, Repr

/-- Line 62 / sql_execution_tool.py lines 101-107:
`df.head(cap) if len(df) > cap else df`. -/
def truncateRows (cap : Nat) (df : List Row) : List Row :=
  if df.length > cap then df.take cap else df

/-- The success path of `SQLExecutionAgent.process` (lines 58-77), given the
fully materialized result `df`: rows capped at 100 for transport, `row_count`
the untruncated `len(df)`. -/
def execAgentSuccess (df : List Row) (cols : List String) : ExecSuccess :=
  ⟨truncateRows 100 df, cols, df.length⟩

/-! ## In-memory session storage -/

/-- The `self.conversations` dict of `MemorySessionStorage`, as a finite-map
function from session id to stored list. -/
def SessionStore (α : Type) := String → Option (List α)

/-- A freshly constructed store (`self.conversations = {}`). -/
def SessionStore.empty (α : Type) : SessionStore α := fun _ => none

/-- `get_conversation`: `self.conversations.get(session_id, [])`. -/
def SessionStore.get_conversation {α : Type} (st : SessionStore α) (sid : String) :
    List α :=
  (st sid).getD []

/-- `add_to_conversation`: create the entry if absent, then append. -/
def SessionStore.add_to_conversation {α : Type} (st : SessionStore α) (sid : String)
    (e : α) : SessionStore α :=
  fun k => if k = sid then some ((st sid).getD [] ++ [e]) else st k

/-- `clear_conversation`: delete the key when present. -/
def SessionStore.clear_conversation {α : Type} (st : SessionStore α) (sid : String) :
    SessionStore α :=
  fun k => if k = sid then none else st k

end FlightChat

namespace FlightChat

/-! ## Generic list lemmas about occurrences across appends -/

theorem mid_append_cases {q x y : List Char} (h : q <:+: x ++ y) :
    q <:+: x ∨ q <:+: y ∨
      ∃ q1 q2, q = q1 ++ q2 ∧ q1 ≠ [] ∧ q2 ≠ [] ∧ q1 <:+ x ∧ q2 <+: y := by
  obtain ⟨u, v, huv⟩ := h
  rw [List.append_assoc] at huv
  rcases List.append_eq_append_iff.mp huv with ⟨w, hw1, hw2⟩ | ⟨w, hw1, hw2⟩
  · rcases List.append_eq_append_iff.mp hw2 with ⟨z, hz1, hz2⟩ | ⟨z, hz1, hz2⟩
    · exact Or.inl ⟨u, z, by rw [hw1, hz1, List.append_assoc]⟩
    · rcases eq_or_ne w [] with hw0 | hw0
      · refine Or.inr (Or.inl ( List.IsPrefix.isInfix ⟨v, ?_⟩))
        rw [hz1, hw0, List.nil_append, hz2]
      · rcases eq_or_ne z [] with hz0 | hz0
        · refine Or.inl ( List.IsSuffix.isInfix ⟨u, ?_⟩)
          rw [hz1, hz0, List.append_nil, hw1]
        · exact Or.inr (Or.inr ⟨w, z, hz1, hw0, hz0, ⟨u, hw1.symm⟩, ⟨v, hz2.symm⟩⟩)
  · exact Or.inr (Or.inl ⟨w, v, by rw [hw2, List.append_assoc]⟩)

theorem pre_append_cases {l a b : List Char} (h : l <+: a ++ b) : l <+: a ∨ a <+: l := by
  obtain ⟨t, ht⟩ := h
  rcases List.append_eq_append_iff.mp ht with ⟨w, hw1, _⟩ | ⟨w, hw1, _⟩
  · exact Or.inl ⟨w, hw1.symm⟩
  · exact Or.inr ⟨w, hw1.symm⟩

theorem append_single_cases {q x : List Char} {c : Char} (hq : q ≠ [])
    (h : q <:+: x ++ [c]) : q <:+: x ∨ c ∈ q := by
  rcases mid_append_cases h with h1 | h1 | ⟨q1, q2, hq12, h1ne, h2ne, hsuf, hpre⟩
  · exact Or.inl h1
  · right
    rcases List.sublist_singleton.mp h1.sublist with h2 | h2
    · exact absurd h2 hq
    · rw [h2]; exact List.mem_cons_self c []
  · right
    obtain ⟨t, ht⟩ := hpre
    rcases q2 with _ | ⟨d, q2'⟩
    · exact absurd rfl h2ne
    · have hd : d = c := by
        rw [List.cons_append] at ht
        exact ( List.cons.inj ht).1
      rw [hq12]
      exact List.mem_append.mpr (Or.inr (hd ▸ List.mem_cons_self d q2'))

theorem suf_as_drop {l r : List Char} (h : l <:+ r) (hne : l ≠ []) :
    ∃ j, j < r.length ∧ r.drop j = l := by
  obtain ⟨t, ht⟩ := h
  refine ⟨t.length, ?_, ?_⟩
  · rw [← ht, List.length_append]
    have : 0 < l.length := List.length_pos.mpr hne
    omega
  · rw [← ht, List.drop_left]

/-! ## Basic facts about `replaceGo` / `pyReplace` -/

theorem replaceGo_nil (pat rep : List Char) (n : Nat) : replaceGo pat rep n [] = [] := by
  cases n <;> rfl

theorem replaceGo_fuel (pat rep : List Char) :
    ∀ n m s, s.length ≤ n → s.length ≤ m →
      replaceGo pat rep n s = replaceGo pat rep m s := by
  intro n
  induction n with
  | zero =>
    intro m s hn _
    have hs : s = [] := List.length_eq_zero.mp (Nat.le_zero.mp hn)
    subst hs
    simp [replaceGo_nil]
  | succ n ih =>
    intro m s hn hm
    cases s with
    | nil => simp [replaceGo_nil]
    | cons c s' =>
      cases m with
      | zero => simp [List.length_cons] at hm
      | succ m' =>
        simp only [List.length_cons] at hn hm
        by_cases hpre : pat <+: (c :: s')
        · simp only [replaceGo, if_pos hpre]
          congr 1
          exact ih m' _ (by rw [List.length_drop]; omega) (by rw [List.length_drop]; omega)
        · simp only [replaceGo, if_neg hpre]
          congr 1
          exact ih m' s' (by omega) (by omega)

theorem replaceGo_no_occ (pat rep : List Char) :
    ∀ n s, ¬ pat <:+: s → replaceGo pat rep n s = s := by
  intro n
  induction n with
  | zero => intro s _; rfl
  | succ n ih =>
    intro s hno
    cases s with
    | nil => rfl
    | cons c s' =>
      have hpre : ¬ pat <+: (c :: s') := fun h => hno h.isInfix
      simp only [replaceGo, if_neg hpre]
      rw [ih s' (fun h => hno ( List.infix_cons h))]

theorem replaceGo_mem (pat rep : List Char) :
    ∀ n s a, a ∈ replaceGo pat rep n s → a ∈ s ∨ a ∈ rep := by
  intro n
  induction n with
  | zero => intro s a h; exact Or.inl h
  | succ n ih =>
    intro s a h
    cases s with
    | nil => rw [replaceGo_nil] at h; exact absurd h ( List.not_mem_nil a)
    | cons c s' =>
      by_cases hpre : pat <+: (c :: s')
      · simp only [replaceGo, if_pos hpre] at h
        rcases List.mem_append.mp h with h1 | h1
        · exact Or.inr h1
        · rcases ih _ a h1 with h2 | h2
          · exact Or.inl ( List.mem_cons_of_mem c ( List.drop_subset _ _ h2))
          · exact Or.inr h2
      · simp only [replaceGo, if_neg hpre] at h
        rcases List.mem_cons.mp h with h1 | h1
        · exact Or.inl (h1 ▸ List.mem_cons_self c s')
        · rcases ih _ a h1 with h2 | h2
          · exact Or.inl ( List.mem_cons_of_mem c h2)
          · exact Or.inr h2

theorem pre_concat_drop {pat y : List Char} {c : Char} (hc : c ∉ pat)
    (h : pat <+: y ++ [c]) : pat <+: y := by
  rcases pre_append_cases h with h1 | h1
  · exact h1
  · obtain ⟨z, hz⟩ := h1
    obtain ⟨t, ht⟩ := h
    rw [← hz, List.append_assoc] at ht
    have hzt : z ++ t = [c] := List.append_cancel_left ht
    cases z with
    | nil => rw [← hz, List.append_nil]
    | cons d z' =>
      have hd : d = c := by
        rw [List.cons_append] at hzt
        exact ( List.cons.inj hzt).1
      have hcmem : c ∈ pat := by
        rw [← hz]
        exact List.mem_append.mpr (Or.inr (hd ▸ List.mem_cons_self d z'))
      exact absurd hcmem hc

theorem replaceGo_concat (pat rep : List Char) (c : Char) (hpat : pat ≠ []) (hc : c ∉ pat) :
    ∀ n x, x.length + 1 ≤ n →
      replaceGo pat rep n (x ++ [c]) = replaceGo pat rep n x ++ [c] := by
  intro n
  induction n with
  | zero => intro x hx; omega
  | succ n ih =>
    intro x hx
    cases x with
    | nil =>
      have hpre : ¬ pat <+: [c] := by
        intro h
        cases pat with
        | nil => exact hpat rfl
        | cons p ps =>
          rcases List.cons_prefix_cons.mp h with ⟨hp, _⟩
          exact hc (hp ▸ List.mem_cons_self p ps)
      rw [List.nil_append]
      show replaceGo pat rep (n + 1) (c :: []) = replaceGo pat rep (n + 1) [] ++ [c]
      simp only [replaceGo, if_neg hpre, replaceGo_nil]
      simp [replaceGo_nil]
    | cons d x' =>
      simp only [List.length_cons] at hx
      by_cases hpre : pat <+: (d :: x')
      · have hpre2 : pat <+: (d :: (x' ++ [c])) := by
          have h2 : pat <+: ((d :: x') ++ [c]) := hpre.trans ( List.prefix_append _ _)
          rwa [List.cons_append] at h2
        rw [List.cons_append]
        simp only [replaceGo, if_pos hpre2, if_pos hpre]
        have hlen : pat.length - 1 ≤ x'.length := by
          have := hpre.length_le
          simp only [List.length_cons] at this
          omega
        rw [List.drop_append_of_le_length hlen]
        rw [ih _ (by rw [List.length_drop]; omega)]
        rw [List.append_assoc]
      · have hpre2 : ¬ pat <+: (d :: (x' ++ [c])) := by
          intro h
          have h2 : pat <+: ((d :: x') ++ [c]) := by rwa [List.cons_append]
          exact hpre (pre_concat_drop hc h2)
        rw [List.cons_append]
        simp only [replaceGo, if_neg hpre2, if_neg hpre]
        rw [ih _ (by omega), List.cons_append]

theorem pyReplace_no_occ {pat rep s : List Char} (h : ¬ pat <:+: s) :
    pyReplace pat rep s = s :=
  replaceGo_no_occ pat rep s.length s h

theorem pyReplace_concat (pat rep x : List Char) (c : Char) (hpat : pat ≠ [])
    (hc : c ∉ pat) : pyReplace pat rep (x ++ [c]) = pyReplace pat rep x ++ [c] := by
  unfold pyReplace
  have hlen : (x ++ [c]).length = x.length + 1 := by simp
  rw [hlen, replaceGo_concat pat rep c hpat hc _ x (by omega)]
  congr 1
  exact replaceGo_fuel pat rep _ _ x (by omega) le_rfl

theorem pyReplace_mem {pat rep s : List Char} {a : Char} (h : a ∈ pyReplace pat rep s) :
    a ∈ s ∨ a ∈ rep :=
  replaceGo_mem pat rep s.length s a h

end FlightChat

namespace FlightChat

/-- Master lemma about Python-style replacement.  `q` is a forbidden word,
`pat` the replaced pattern and `rep` the replacement.  The order-theoretic side
conditions say that `q` cannot be assembled across a replacement boundary.
Conclusion: when `q` is the pattern itself, or did not occur in the input, it
does not occur in the output; moreover any proper tail of `q` that starts the
output already started the input. -/
theorem replaceGo_keeps_clean (pat rep q : List Char)
    (hq : q ≠ [])
    (h1 : ¬ q <:+: rep)
    (h2 : ∀ j, j < rep.length → ¬ rep.drop j <+: q)
    (hside : (rep = [] ∧ q = pat ∧ ∀ j, 1 ≤ j → j < q.length → q.drop j <+: q) ∨
      (rep ≠ [] ∧ ∀ j, 1 ≤ j → j < q.length → ¬ q.drop j <+: rep ∧ ¬ rep <+: q.drop j)) :
    ∀ n s, s.length ≤ n → (q = pat ∨ ¬ q <:+: s) →
      ¬ q <:+: replaceGo pat rep n s ∧
      ∀ j, 1 ≤ j → j < q.length → q.drop j <+: replaceGo pat rep n s →
        q.drop j <+: s := by
  intro n
  induction n with
  | zero =>
    intro s hn _
    have hs : s = [] := List.length_eq_zero.mp (Nat.le_zero.mp hn)
    subst hs
    refine ⟨?_, ?_⟩
    · rw [replaceGo_nil]
      intro h
      exact hq ( List.infix_nil.mp h)
    · intro j _ hj2 hdp
      rw [replaceGo_nil] at hdp
      have h0 := List.prefix_nil.mp hdp
      have := List.length_drop j q
      rw [h0] at this
      simp at this
      omega
  | succ n ih =>
    intro s hn hd
    cases s with
    | nil =>
      refine ⟨?_, ?_⟩
      · rw [replaceGo_nil]
        intro h
        exact hq ( List.infix_nil.mp h)
      · intro j _ hj2 hdp
        rw [replaceGo_nil] at hdp
        have h0 := List.prefix_nil.mp hdp
        have := List.length_drop j q
        rw [h0] at this
        simp at this
        omega
    | cons c s' =>
      simp only [List.length_cons] at hn
      by_cases hpre : pat <+: (c :: s')
      · -- replacement branch
        have htlen : (s'.drop (pat.length - 1)).length ≤ n := by
          rw [List.length_drop]; omega
        have htd : q = pat ∨ ¬ q <:+: s'.drop (pat.length - 1) := by
          rcases hd with hd | hd
          · exact Or.inl hd
          · right
            intro hcon
            apply hd
            have hsub : s'.drop (pat.length - 1) <:+ (c :: s') :=
              List.IsSuffix.trans ( List.drop_suffix _ _) ( List.suffix_cons c s')
            exact List.IsInfix.trans hcon ( List.IsSuffix.isInfix hsub)
        obtain ⟨iA, iB⟩ := ih (s'.drop (pat.length - 1)) htlen htd
        have hstep : replaceGo pat rep (n + 1) (c :: s') =
            rep ++ replaceGo pat rep n (s'.drop (pat.length - 1)) := by
          simp only [replaceGo, if_pos hpre]
        rw [hstep]
        refine ⟨?_, ?_⟩
        · intro hcon
          rcases mid_append_cases hcon with hcase | hcase |
            ⟨q1, q2, hq12, h1ne, h2ne, hsuf, _⟩
          · exact h1 hcase
          · exact iA hcase
          · obtain ⟨j, hjlt, hjdrop⟩ := suf_as_drop hsuf h1ne
            apply h2 j hjlt
            rw [hjdrop, hq12]
            exact List.prefix_append q1 q2
        · intro j hj1 hj2 hdp
          rcases hside with ⟨_, hqpat, hdropq⟩ | ⟨_, h3⟩
          · exact List.IsPrefix.trans (hdropq j hj1 hj2) (by rw [hqpat]; exact hpre)
          · rcases pre_append_cases hdp with hcase | hcase
            · exact absurd hcase (h3 j hj1 hj2).1
            · exact absurd hcase (h3 j hj1 hj2).2
      · -- copy branch
        have hd' : q = pat ∨ ¬ q <:+: s' := by
          rcases hd with hd | hd
          · exact Or.inl hd
          · exact Or.inr (fun hcon => hd ( List.infix_cons hcon))
        obtain ⟨iA, iB⟩ := ih s' (by omega) hd'
        have hstep : replaceGo pat rep (n + 1) (c :: s') =
            c :: replaceGo pat rep n s' := by
          simp only [replaceGo, if_neg hpre]
        rw [hstep]
        have hqpre : ¬ q <+: (c :: s') := by
          intro hcon
          rcases hd with hd | hd
          · exact hpre (hd ▸ hcon)
          · exact hd ( List.IsPrefix.isInfix hcon)
        refine ⟨?_, ?_⟩
        · intro hcon
          rcases List.infix_cons_iff.mp hcon with hcase | hcase
          · obtain ⟨qh, qt, hq0⟩ := List.exists_cons_of_ne_nil hq
            rw [hq0] at hcase
            obtain ⟨hqh, hqt⟩ := List.cons_prefix_cons.mp hcase
            by_cases hqt0 : qt = []
            · apply hqpre
              rw [hq0, hqt0, hqh]
              exact List.cons_prefix_cons.mpr ⟨rfl, List.nil_prefix⟩
            · have hqt1 : q.drop 1 = qt := by rw [hq0]; rfl
              have hlen : 1 < q.length := by
                rw [hq0, List.length_cons]
                have := List.length_pos.mpr hqt0
                omega
              have hqs : q.drop 1 <+: s' := iB 1 le_rfl hlen (by rw [hqt1]; exact hqt)
              apply hqpre
              rw [hq0, hqh]
              exact List.cons_prefix_cons.mpr ⟨rfl, by rw [← hqt1]; exact hqs⟩
          · exact iA hcase
        · intro j hj1 hj2 hdp
          have hdne : q.drop j ≠ [] := by
            intro h0
            have := List.length_drop j q
            rw [h0] at this
            simp at this
            omega
          obtain ⟨dh, dt, hdeq⟩ := List.exists_cons_of_ne_nil hdne
          rw [hdeq] at hdp
          obtain ⟨hdh, hdt⟩ := List.cons_prefix_cons.mp hdp
          have hdt1 : q.drop (j + 1) = dt := by
            have hstep2 : (q.drop j).drop 1 = dt := by rw [hdeq]; rfl
            rw [List.drop_drop] at hstep2
            exact hstep2
          by_cases hdt0 : dt = []
          · rw [hdeq, hdh, hdt0]
            exact List.cons_prefix_cons.mpr ⟨rfl, List.nil_prefix⟩
          · have hlen2 : j + 1 < q.length := by
              have hlen3 := congrArg List.length hdt1
              rw [List.length_drop] at hlen3
              have := List.length_pos.mpr hdt0
              omega
            have hds : q.drop (j + 1) <+: s' :=
              iB (j + 1) (by omega) hlen2 (by rw [hdt1]; exact hdt)
            rw [hdeq, hdh]
            exact List.cons_prefix_cons.mpr ⟨rfl, by rw [← hdt1]; exact hds⟩

end FlightChat

namespace FlightChat

theorem pyReplace_keeps_clean (pat rep q : List Char)
    (hq : q ≠ [])
    (h1 : ¬ q <:+: rep)
    (h2 : ∀ j, j < rep.length → ¬ rep.drop j <+: q)
    (hside : (rep = [] ∧ q = pat ∧ ∀ j, 1 ≤ j → j < q.length → q.drop j <+: q) ∨
      (rep ≠ [] ∧ ∀ j, 1 ≤ j → j < q.length → ¬ q.drop j <+: rep ∧ ¬ rep <+: q.drop j))
    (s : List Char) (hd : q = pat ∨ ¬ q <:+: s) :
    ¬ q <:+: pyReplace pat rep s :=
  (replaceGo_keeps_clean pat rep q hq h1 h2 hside s.length s le_rfl hd).1

/-- Deleting the "```" token leaves a text with no "```" occurrence, whatever
the input was. -/
theorem pyReplace_bt3 (s : List Char) : ¬ bt3 <:+: pyReplace bt3 [] s := by
  apply pyReplace_keeps_clean bt3 [] bt3 (by decide) (by decide)
    (fun j hj => absurd hj (by simp)) (Or.inl ⟨rfl, rfl, by decide⟩) s (Or.inl rfl)

/-- Replacing "EXTRACT(" with "date_part(" leaves no "EXTRACT(" occurrence. -/
theorem pyReplace_extract_self (s : List Char) :
    ¬ extractPat <:+: pyReplace extractPat datePartRep s := by
  apply pyReplace_keeps_clean extractPat datePartRep extractPat (by decide) (by decide)
    (by decide) (Or.inr ⟨by decide, by decide⟩) s (Or.inl rfl)

/-- Replacing "ROUND(" with "CAST(" leaves no "ROUND(" occurrence. -/
theorem pyReplace_round_self (s : List Char) :
    ¬ roundPat <:+: pyReplace roundPat castRep s := by
  apply pyReplace_keeps_clean roundPat castRep roundPat (by decide) (by decide)
    (by decide) (Or.inr ⟨by decide, by decide⟩) s (Or.inl rfl)

/-- The EXTRACT( replacement cannot create a "```" occurrence. -/
theorem pyReplace_extract_keeps_bt3 {s : List Char} (h : ¬ bt3 <:+: s) :
    ¬ bt3 <:+: pyReplace extractPat datePartRep s := by
  apply pyReplace_keeps_clean extractPat datePartRep bt3 (by decide) (by decide)
    (by decide) (Or.inr ⟨by decide, by decide⟩) s (Or.inr h)

/-- The ROUND( replacement cannot create a "```" occurrence. -/
theorem pyReplace_round_keeps_bt3 {s : List Char} (h : ¬ bt3 <:+: s) :
    ¬ bt3 <:+: pyReplace roundPat castRep s := by
  apply pyReplace_keeps_clean roundPat castRep bt3 (by decide) (by decide)
    (by decide) (Or.inr ⟨by decide, by decide⟩) s (Or.inr h)

/-- The ROUND( replacement cannot create an "EXTRACT(" occurrence. -/
theorem pyReplace_round_keeps_extract {s : List Char} (h : ¬ extractPat <:+: s) :
    ¬ extractPat <:+: pyReplace roundPat castRep s := by
  apply pyReplace_keeps_clean roundPat castRep extractPat (by decide) (by decide)
    (by decide) (Or.inr ⟨by decide, by decide⟩) s (Or.inr h)

/-! ## Facts about the strip / statement-truncation steps -/

theorem trimRight_pre (s : List Char) : trimRight s <+: s := by
  have h : (s.reverse).dropWhile isPySpace <:+ s.reverse := List.dropWhile_suffix isPySpace
  have h2 : (s.reverse.dropWhile isPySpace).reverse <+: s.reverse.reverse :=
    List.reverse_prefix.mpr h
  rwa [List.reverse_reverse] at h2

theorem pyStrip_mid (s : List Char) : pyStrip s <:+: s := by
  have h1 : trimRight (trimLeft s) <+: trimLeft s := trimRight_pre (trimLeft s)
  have h2 : trimLeft s <:+ s := List.dropWhile_suffix isPySpace
  exact List.IsInfix.trans ( List.IsPrefix.isInfix h1) ( List.IsSuffix.isInfix h2)

theorem truncFirstStmt_keeps {q : List Char} (hq : q ≠ []) (hqs : ';' ∉ q)
    {s : List Char} (h : ¬ q <:+: s) : ¬ q <:+: truncFirstStmt s := by
  unfold truncFirstStmt
  split
  · intro hcon
    rcases append_single_cases hq hcon with hcase | hcase
    · exact h ( List.IsInfix.trans hcase
        ( List.IsPrefix.isInfix ( List.takeWhile_prefix _)))
    · exact hqs hcase
  · exact h

theorem truncFirstStmt_semi (s : List Char) :
    ';' ∉ truncFirstStmt s ∨ (truncFirstStmt s).getLast? = some ';' := by
  unfold truncFirstStmt
  split
  · right
    exact List.getLast?_concat _
  · rename_i hcond
    by_cases hm : ';' ∈ s
    · right
      by_contra hlast
      exact hcond ⟨hm, hlast⟩
    · exact Or.inl hm

theorem pyReplace_keeps_last_semi {pat rep s : List Char} (hpat : pat ≠ [])
    (hps : ';' ∉ pat) (h : s.getLast? = some ';') :
    (pyReplace pat rep s).getLast? = some ';' := by
  have hne : s ≠ [] := by
    intro h0
    rw [h0] at h
    simp at h
  have hg := List.getLast?_eq_getLast s hne
  rw [hg] at h
  have hlast : s.getLast hne = ';' := Option.some.inj h
  have hs : s.dropLast ++ [';'] = s := by
    rw [← hlast]
    exact List.dropLast_append_getLast hne
  rw [← hs, pyReplace_concat pat rep _ ';' hpat hps, List.getLast?_concat]

end FlightChat

namespace FlightChat

/-- C5 (amended): for every string the Generator returns with Success outcome,
the post-processed `sql_text` contains no code-fence token "```" and no
occurrence of "EXTRACT(" or "ROUND("; and whenever it contains a `;` at all,
its final character is `;`.  (The original claim's stronger condition — no `;`
other than as the final character — is refuted by
`clean_sql_semicolon_cex`: when the raw text already ends with `;`, interior
semicolons survive, because the truncation step is skipped.) -/
theorem clean_sql_success_guarantees (s t : List Char) (h : cleanSqlQuery s = some t) :
    ¬ bt3 <:+: t ∧ ¬ extractPat <:+: t ∧ ¬ roundPat <:+: t ∧
      (';' ∈ t → t.getLast? = some ';') := by
  rcases h1 : stripLeadingFence s with _ | s1
  · unfold cleanSqlQuery at h
    rw [h1] at h
    exact absurd h (by simp)
  · unfold cleanSqlQuery at h
    rw [h1] at h
    simp only [Option.some.injEq] at h
    subst h
    have h3 : ¬ bt3 <:+:
        pyStrip (pyReplace bt3 [] (pyReplace fenceSqlTok [] (stripTrailingFence s1))) :=
      fun hcon => pyReplace_bt3 _ ( List.IsInfix.trans hcon (pyStrip_mid _))
    have h4 : ¬ bt3 <:+: truncFirstStmt
        (pyStrip (pyReplace bt3 [] (pyReplace fenceSqlTok [] (stripTrailingFence s1)))) :=
      truncFirstStmt_keeps (by decide) (by decide) h3
    refine ⟨?_, ?_, ?_, ?_⟩
    · exact pyReplace_round_keeps_bt3 (pyReplace_extract_keeps_bt3 h4)
    · exact pyReplace_round_keeps_extract (pyReplace_extract_self _)
    · exact pyReplace_round_self _
    · intro hm
      rcases truncFirstStmt_semi
          (pyStrip (pyReplace bt3 [] (pyReplace fenceSqlTok [] (stripTrailingFence s1))))
        with hno | hlast
      · exfalso
        rcases pyReplace_mem hm with hmm | hmm
        · rcases pyReplace_mem hmm with hmm2 | hmm2
          · exact hno hmm2
          · exact absurd hmm2 (by decide)
        · exact absurd hmm (by decide)
      · exact pyReplace_keeps_last_semi (by decide) (by decide)
          (pyReplace_keeps_last_semi (by decide) (by decide) hlast)

/-- Witness for `clean_sql_success_guarantees` at the concrete input
"SELECT 1", which the cleanup maps to itself. -/
theorem clean_sql_success_guarantees_witness :
    ¬ bt3 <:+: ("SELECT 1".toList) ∧ ¬ extractPat <:+: ("SELECT 1".toList) ∧
      ¬ roundPat <:+: ("SELECT 1".toList) ∧
      (';' ∈ ("SELECT 1".toList) → ("SELECT 1".toList).getLast? = some ';') :=
  clean_sql_success_guarantees ("SELECT 1".toList) ("SELECT 1".toList) (by decide)

/-- C5 counterexample: the raw model output "SELECT 1; SELECT 2;" passes the
cleanup unchanged (it ends with `;`, so the first-statement truncation is
skipped) and the successful result keeps a `;` that is not its final
character — two statements survive. -/
theorem clean_sql_semicolon_cex :
    cleanSqlQuery ("SELECT 1; SELECT 2;".toList) =
        some ("SELECT 1; SELECT 2;".toList) ∧
      ';' ∈ ("SELECT 1; SELECT 2;".toList).dropLast := by decide

/-- C8 (amended): the cleanup is the identity on strings with no "```", no
"EXTRACT(", no "ROUND(", no leading/trailing Python whitespace, and no `;`
unless the final character is `;`.  (The claim's weaker precondition — only
"no fences, no banned functions" — is refuted by `clean_sql_identity_cex`:
the statement-truncation and `strip()` steps also change such strings.) -/
theorem clean_sql_identity_on_clean (s : List Char)
    (hb : ¬ bt3 <:+: s) (he : ¬ extractPat <:+: s) (hr : ¬ roundPat <:+: s)
    (hstrip : pyStrip s = s) (hsemi : ';' ∈ s → s.getLast? = some ';') :
    cleanSqlQuery s = some s := by
  have h1 : stripLeadingFence s = some s := by
    unfold stripLeadingFence
    rw [if_neg (fun hc => hb ( List.IsPrefix.isInfix hc))]
  have h2 : stripTrailingFence s = s := by
    unfold stripTrailingFence
    rw [if_neg (fun hc => hb ( List.IsSuffix.isInfix hc))]
  have h3 : pyReplace fenceSqlTok [] s = s :=
    pyReplace_no_occ (fun hc => hb ( List.IsInfix.trans
      ( List.IsPrefix.isInfix (by decide)) hc))
  have h4 : pyReplace bt3 [] s = s := pyReplace_no_occ hb
  have h5 : truncFirstStmt s = s := by
    unfold truncFirstStmt
    rw [if_neg (fun hc => hc.2 (hsemi hc.1))]
  have h6 : pyReplace extractPat datePartRep s = s := pyReplace_no_occ he
  have h7 : pyReplace roundPat castRep s = s := pyReplace_no_occ hr
  unfold cleanSqlQuery
  rw [h1]
  simp only [h2, h3, h4, hstrip, h5, h6, h7]

/-- Witness for `clean_sql_identity_on_clean` at the concrete clean input
"SELECT 1". -/
theorem clean_sql_identity_on_clean_witness :
    cleanSqlQuery ("SELECT 1".toList) = some ("SELECT 1".toList) :=
  clean_sql_identity_on_clean ("SELECT 1".toList) (by decide) (by decide) (by decide)
    (by decide) (by decide)

/-- C8 counterexample: "a;b" holds no fence and no banned function name, yet
the cleanup step is not the identity on it — the first-statement truncation
turns it into "a;". -/
theorem clean_sql_identity_cex :
    ¬ bt3 <:+: ("a;b".toList) ∧ ¬ extractPat <:+: ("a;b".toList) ∧
      ¬ roundPat <:+: ("a;b".toList) ∧
      cleanSqlQuery ("a;b".toList) = some ("a;".toList) ∧
      cleanSqlQuery ("a;b".toList) ≠ some ("a;b".toList) := by decide

end FlightChat

namespace FlightChat

theorem truncate10_length (l : List Turn) : (truncate10 l).length ≤ 10 := by
  unfold truncate10
  split
  · rw [List.length_drop]
    omega
  · omega

theorem truncate10_suf (l : List Turn) : truncate10 l <:+ l := by
  unfold truncate10
  split
  · exact List.drop_suffix _ _
  · exact List.suffix_rfl

/-- C1: in every pipeline run the SQL Generator is invoked at most twice and
the SQL Executor at most twice — one generate-execute pass plus at most one
regenerate-re-execute pass; a second execution failure starts no further
cycle. -/
theorem gen_exec_call_bound (query session_id : String) (intent : Intent)
    (gen1 gen2 : GenRes) (exec1 exec2 : ExecRes) (hist : List Turn) :
    (processRun query session_id intent gen1 gen2 exec1 exec2 hist).genCalls ≤ 2 ∧
    (processRun query session_id intent gen1 gen2 exec1 exec2 hist).execCalls ≤ 2 := by
  cases gen1 <;> cases intent <;> cases exec1 <;> cases gen2 <;> cases exec2 <;>
    constructor <;> simp [processRun]

/-- C2 counterexample: a run that fails at both Executing and ReExecuting does
mutate the session history — `process` appends the user turn at its start
(line 73), so the post-run history differs from the pre-run history. -/
theorem failed_run_mutates_history_cex :
    (processRun "q" "s" Intent.sqlGenerationAndExecution (GenRes.ok "S1")
        (GenRes.ok "S2") (ExecRes.err "e1") (ExecRes.err "e2") []).hist ≠
      ([] : List Turn) := by decide

/-- C2 (amended): every run that ends with error status leaves the history
equal to the pre-run history with exactly the user turn appended (no SQL text);
the (user request, accepted SQL) pair is completed only on the Success
transition. -/
theorem failed_run_appends_user_turn (query session_id : String) (intent : Intent)
    (gen1 gen2 : GenRes) (exec1 exec2 : ExecRes) (hist : List Turn)
    (h : (processRun query session_id intent gen1 gen2 exec1 exec2 hist).res.isError
      = true) :
    (processRun query session_id intent gen1 gen2 exec1 exec2 hist).hist =
      hist ++ [userTurn query] := by
  cases gen1 <;> cases intent <;> cases exec1 <;> cases gen2 <;> cases exec2 <;>
    simp_all [processRun, OrchResult.isError]

/-- Witness for `failed_run_appends_user_turn` at a concrete double-failure
run. -/
theorem failed_run_appends_user_turn_witness :
    (processRun "q2" "s" Intent.sqlGenerationAndExecution (GenRes.ok "S1")
        (GenRes.ok "S2") (ExecRes.err "e1") (ExecRes.err "e2") []).hist =
      [] ++ [userTurn "q2"] :=
  failed_run_appends_user_turn "q2" "s" Intent.sqlGenerationAndExecution
    (GenRes.ok "S1") (GenRes.ok "S2") (ExecRes.err "e1") (ExecRes.err "e2") []
    (by decide)

/-- C3: when the first execution fails and the re-execution of the regenerated
SQL succeeds, the run ends in Success, the returned `sql_query` is the
regenerated text, the `error` key is absent, and the history records the
regenerated SQL together with the user turn. -/
theorem repair_success_returns_regenerated (query session_id s1 s2 e1 : String)
    (rows : List Row) (cols : List String) (cnt : Nat) (hist : List Turn) :
    processRun query session_id Intent.sqlGenerationAndExecution (GenRes.ok s1)
        (GenRes.ok s2) (ExecRes.err e1) (ExecRes.ok rows cols cnt) hist =
      ⟨OrchResult.done s2 rows cols cnt session_id "SQL generation and execution",
        truncate10 (hist ++ [userTurn query, asstTurn s2]), 2, 2⟩ ∧
    OrchResult.errOut (OrchResult.done s2 rows cols cnt session_id
        "SQL generation and execution") = none := by
  constructor
  · simp [processRun]
  · rfl

/-- C4 (amended): when both executions fail the run terminates with error
status; the reported message is the fixed prefix
"Failed to execute SQL after regeneration: " followed by the second (final)
execution error alone — the original execution error is not included (see
`combined_error_message_cex`). -/
theorem double_failure_error_message (query session_id s1 s2 e1 e2 : String)
    (hist : List Turn) :
    processRun query session_id Intent.sqlGenerationAndExecution (GenRes.ok s1)
        (GenRes.ok s2) (ExecRes.err e1) (ExecRes.err e2) hist =
      ⟨OrchResult.execFailedTwice
          ("Failed to execute SQL after regeneration: " ++ e2) query s2,
        hist ++ [userTurn query], 2, 2⟩ := by
  rfl

/-- C4 counterexample: with first error "ERR1" and second error "ERR2" the run
reports exactly "Failed to execute SQL after regeneration: ERR2"; the original
error "ERR1" does not occur in the message, so the message does not combine
the two errors. -/
theorem combined_error_message_cex :
    OrchResult.errOut (processRun "q" "s" Intent.sqlGenerationAndExecution
        (GenRes.ok "S1") (GenRes.ok "S2") (ExecRes.err "ERR1")
        (ExecRes.err "ERR2") []).res =
      some "Failed to execute SQL after regeneration: ERR2" ∧
    ¬ ("ERR1".toList <:+:
        ("Failed to execute SQL after regeneration: ERR2").toList) := by
  exact ⟨by decide, by decide⟩

/-- C6: the empty user query is rejected immediately with the
'No query provided' error (spec name: EmptyQueryError) by the request handler,
before the orchestrator runs: zero Generator calls, zero Executor calls, and
the history is untouched. -/
theorem empty_query_zero_calls (session_id fresh_id : String) (intent : Intent)
    (gen1 gen2 : GenRes) (exec1 exec2 : ExecRes) (hist : List Turn) :
    chatRun "" session_id fresh_id intent gen1 gen2 exec1 exec2 hist =
      ⟨ChatResp.badRequest "No query provided", hist, 0, 0⟩ := by
  rfl

/-- C9 counterexample: starting from a history already at the 10-turn window,
a run that fails at generation leaves 11 turns: failed runs append the user
turn without applying the retention window. -/
theorem history_window_cex :
    ((processRun "q" "s" Intent.sqlGenerationAndExecution (GenRes.err "boom")
        (GenRes.err "b") (ExecRes.err "e") (ExecRes.err "e")
        ( List.replicate 10 (userTurn "x"))).hist).length = 11 := by decide

/-- C9 (amended): after every invocation whose result has success status the
history holds at most the 10 most recent turns, with the oldest evicted first
(what remains is a suffix of the appended history); failing invocations do not
truncate and can leave the history above the window (see
`history_window_cex`). -/
theorem success_history_bounded (query session_id : String) (intent : Intent)
    (gen1 gen2 : GenRes) (exec1 exec2 : ExecRes) (hist : List Turn)
    (h : (processRun query session_id intent gen1 gen2 exec1 exec2 hist).res.isError
      = false) :
    ((processRun query session_id intent gen1 gen2 exec1 exec2 hist).hist).length ≤ 10 ∧
    (processRun query session_id intent gen1 gen2 exec1 exec2 hist).hist <:+
      hist ++ [userTurn query, asstTurn
        (((processRun query session_id intent gen1 gen2 exec1 exec2
            hist).res.sqlOut).getD "")] := by
  cases gen1 <;> cases intent <;> cases exec1 <;> cases gen2 <;> cases exec2 <;>
    simp_all [processRun, OrchResult.isError, OrchResult.sqlOut] <;>
    exact ⟨truncate10_length _, truncate10_suf _⟩

/-- Witness for `success_history_bounded` at a concrete repaired run. -/
theorem success_history_bounded_witness :
    ((processRun "q" "s" Intent.sqlGenerationAndExecution (GenRes.ok "S1")
        (GenRes.ok "S2") (ExecRes.err "e1") (ExecRes.ok [] [] 0) []).hist).length ≤ 10 ∧
    (processRun "q" "s" Intent.sqlGenerationAndExecution (GenRes.ok "S1")
        (GenRes.ok "S2") (ExecRes.err "e1") (ExecRes.ok [] [] 0) []).hist <:+
      [] ++ [userTurn "q", asstTurn
        (((processRun "q" "s" Intent.sqlGenerationAndExecution (GenRes.ok "S1")
            (GenRes.ok "S2") (ExecRes.err "e1")
            (ExecRes.ok [] [] 0) []).res.sqlOut).getD "")] :=
  success_history_bounded "q" "s" Intent.sqlGenerationAndExecution (GenRes.ok "S1")
    (GenRes.ok "S2") (ExecRes.err "e1") (ExecRes.ok [] [] 0) [] (by decide)

/-- C7: a successful execution returns at most `cap` rows, a prefix of the
materialized result (the first rows, in datastore order, whenever the result
exceeds the cap), while `row_count` reports the untruncated total, so
`row_count ≥ len(rows)`; the agent fixes the cap at 100. -/
theorem exec_row_truncation (cap : Nat) (df : List Row) (cols : List String) :
    truncateRows cap df <+: df ∧
    (truncateRows cap df).length ≤ cap ∧
    (df.length > cap → truncateRows cap df = df.take cap) ∧
    (execAgentSuccess df cols).results = truncateRows 100 df ∧
    (execAgentSuccess df cols).row_count = df.length ∧
    (execAgentSuccess df cols).results.length ≤ (execAgentSuccess df cols).row_count := by
  refine ⟨?_, ?_, ?_, rfl, rfl, ?_⟩
  · unfold truncateRows
    split
    · exact List.take_prefix _ _
    · exact List.prefix_rfl
  · unfold truncateRows
    split
    · rw [List.length_take]
      exact Nat.min_le_left _ _
    · omega
  · intro hgt
    unfold truncateRows
    rw [if_pos hgt]
  · show (truncateRows 100 df).length ≤ df.length
    unfold truncateRows
    split
    · rw [List.length_take]
      exact Nat.min_le_right _ _
    · omega

/-- Witness for `exec_row_truncation` with a 2-row result and cap 1. -/
theorem exec_row_truncation_witness :
    truncateRows 1 [[("a", "1")], [("a", "2")]] <+: [[("a", "1")], [("a", "2")]] ∧
    (truncateRows 1 [[("a", "1")], [("a", "2")]]).length ≤ 1 ∧
    (([[("a", "1")], [("a", "2")]] : List Row).length > 1 →
      truncateRows 1 [[("a", "1")], [("a", "2")]] =
        ([[("a", "1")], [("a", "2")]] : List Row).take 1) ∧
    (execAgentSuccess [[("a", "1")], [("a", "2")]] ["a"]).results =
      truncateRows 100 [[("a", "1")], [("a", "2")]] ∧
    (execAgentSuccess [[("a", "1")], [("a", "2")]] ["a"]).row_count =
      ([[("a", "1")], [("a", "2")]] : List Row).length ∧
    (execAgentSuccess [[("a", "1")], [("a", "2")]] ["a"]).results.length ≤
      (execAgentSuccess [[("a", "1")], [("a", "2")]] ["a"]).row_count :=
  exec_row_truncation 1 [[("a", "1")], [("a", "2")]] ["a"]

/-- C10: the in-memory session store isolates sessions: `add_to_conversation`
and `clear_conversation` on one id leave reads of a distinct id unchanged, an
id never written reads as the empty conversation, a cleared id reads as the
empty conversation, and clearing an unknown id is a no-op. -/
theorem session_isolation {α : Type} (st : SessionStore α) (a b : String) (e : α)
    (hab : a ≠ b) :
    SessionStore.get_conversation (SessionStore.add_to_conversation st a e) b =
        SessionStore.get_conversation st b ∧
    SessionStore.get_conversation (SessionStore.clear_conversation st a) b =
        SessionStore.get_conversation st b ∧
    SessionStore.get_conversation (SessionStore.empty α) b = [] ∧
    SessionStore.get_conversation (SessionStore.clear_conversation st a) a = [] ∧
    (st a = none → SessionStore.clear_conversation st a = st) := by
  refine ⟨?_, ?_, rfl, ?_, ?_⟩
  · unfold SessionStore.get_conversation SessionStore.add_to_conversation
    rw [if_neg (fun hba => hab hba.symm)]
  · unfold SessionStore.get_conversation SessionStore.clear_conversation
    rw [if_neg (fun hba => hab hba.symm)]
  · unfold SessionStore.get_conversation SessionStore.clear_conversation
    rw [if_pos rfl]
    rfl
  · intro h
    funext k
    unfold SessionStore.clear_conversation
    by_cases hk : k = a
    · rw [if_pos hk, hk, h]
    · rw [if_neg hk]

/-- Witness for `session_isolation` on the empty store with ids "s1" and
"s2". -/
theorem session_isolation_witness :
    SessionStore.get_conversation
        (SessionStore.add_to_conversation (SessionStore.empty Nat) "s1" 0) "s2" =
        SessionStore.get_conversation (SessionStore.empty Nat) "s2" ∧
    SessionStore.get_conversation
        (SessionStore.clear_conversation (SessionStore.empty Nat) "s1") "s2" =
        SessionStore.get_conversation (SessionStore.empty Nat) "s2" ∧
    SessionStore.get_conversation (SessionStore.empty Nat) "s2" = [] ∧
    SessionStore.get_conversation
        (SessionStore.clear_conversation (SessionStore.empty Nat) "s1") "s1" = [] ∧
    (SessionStore.empty Nat "s1" = none →
      SessionStore.clear_conversation (SessionStore.empty Nat) "s1" =
        SessionStore.empty Nat) :=
  session_isolation (SessionStore.empty Nat) "s1" "s2" 0 (by decide)

end FlightChat
